import Mathlib

/-!
Verification of the NE2000 driver of xv6-network (src/eth/ne.c, with the
second revision of the same file at src/unnamed/part_006) against its
specification.  The driver is shallowly embedded: the driver-visible state
of `ne_t` becomes `NeState`, port input is passed in as explicit oracle
arguments (register reads, card RAM contents), and each C function becomes
a Lean function on that data.  Machine integers are modelled as `Nat`/`Int`
with explicit reductions modulo `2 ^ 32` (for `uint` arithmetic) and
modulo `256` (for byte-wide port transfers) exactly where the C types
force them.
-/

/-- Modelled from the spec: the header ne.h is not part of the available
sources, so the numeric configuration constants it defines (card RAM
geometry, page size, send-queue shape, Ethernet frame bounds, and the
status-bit masks) are kept abstract in this record.  Every theorem is
parametric in the configuration; hypotheses state only the facts the spec
implies (for example that the send queue is nonempty and fits in the card
RAM). -/
structure NeConfig where
  pagesize : Nat
  ne1000start : Nat
  ne1000size : Nat
  ne2000start : Nat
  ne2000size : Nat
  sendqPages : Nat
  sendqLen : Nat
  ethMin : Nat
  ethMax : Nat
  rsrPrx : Nat
  isrPtx : Nat
deriving DecidableEq

/-- Modelled from the spec: a representative configuration used for witnesses
and counterexamples, with the classic NE2000 card geometry (16 kB of RAM at
address 0x4000, 8 kB at 0x2000 for the NE1000, 256-byte pages, two 6-page
transmit slots, Ethernet frame bounds 60..1514, RSR_PRX = 0x01,
ISR_PTX = 0x02). -/
def cfg0 : NeConfig :=
  { pagesize := 256
    ne1000start := 8192
    ne1000size := 8192
    ne2000start := 16384
    ne2000size := 16384
    sendqPages := 6
    sendqLen := 2
    ethMin := 60
    ethMax := 1514
    rsrPrx := 1
    isrPtx := 2 }

/-- Driver-visible state of `ne_t` (the fields ne.c reads or writes; the
purely informational `name`, `base`, `irq` fields are omitted). The send
queue is represented by the page of each slot and the `filled` flag of each
slot, indexed by slot number. -/
structure NeState where
  is16bit : Bool
  ramsize : Nat
  startaddr : Nat
  send_startpage : Nat
  pages : Nat
  send_stoppage : Nat
  recv_startpage : Nat
  recv_stoppage : Nat
  sendqPage : Nat → Nat
  sendqFilled : Nat → Bool
  sendq_head : Nat
  sendq_tail : Nat

/-- Pointwise update of a slot flag array. -/
def setSlot (f : Nat → Bool) (i : Nat) (b : Bool) : Nat → Bool :=
  fun j => if j = i then b else f j

/-- Embedding of `ne_init` (src/eth/ne.c lines 116-181): computes the memory
layout from the bus width and resets the send queue.  The register-write
sequence at the end touches no driver state and is omitted here. -/
def ne_init (c : NeConfig) (w : Bool) : NeState :=
  let ramsize := if w then c.ne2000size else c.ne1000size
  let startaddr := if w then c.ne2000start else c.ne1000start
  let send_startpage := startaddr / c.pagesize
  let pages := ramsize / c.pagesize
  let send_stoppage := send_startpage + c.sendqPages * c.sendqLen - 1
  { is16bit := w
    ramsize := ramsize
    startaddr := startaddr
    send_startpage := send_startpage
    pages := pages
    send_stoppage := send_stoppage
    recv_startpage := send_stoppage + 1
    recv_stoppage := send_startpage + pages
    sendqPage := fun i => send_startpage + i * c.sendqPages
    sendqFilled := fun _ => false
    sendq_head := 0
    sendq_tail := c.sendqLen - 1 }

/-- Embedding of the state effect and return value of `ne_pio_write`
(src/eth/ne.c lines 265-290): if the head slot is filled or `head > tail`,
return 0 (busy) and leave the state unchanged; otherwise mark the slot
filled, advance `head` and return `size`. -/
def ne_pio_write (c : NeConfig) (st : NeState) (size : Nat) : Nat × NeState :=
  if st.sendqFilled (st.sendq_head % c.sendqLen) = true ∨ st.sendq_head > st.sendq_tail then
    (0, st)
  else
    (size,
      { st with
        sendqFilled := setSlot st.sendqFilled (st.sendq_head % c.sendqLen) true
        sendq_head := st.sendq_head + 1 })

/-- Embedding of the `ISR_PTX` branch of `ne_interrupt` (src/eth/ne.c lines
387-392): increment `tail`, then clear the `filled` flag of slot
`tail mod SENDQ_LEN`. -/
def ne_interrupt_ptx (c : NeConfig) (st : NeState) : NeState :=
  { st with
    sendq_tail := st.sendq_tail + 1
    sendqFilled := setSlot st.sendqFilled ((st.sendq_tail + 1) % c.sendqLen) false }

/-- Embedding of `ne_interrupt` (src/eth/ne.c lines 379-398): the handler
drains the interrupt-status register; `isrs` is the sequence of nonzero
values read from it, and each reading with the `ISR_PTX` bit set retires one
send-queue slot.  The `ISR_PRX` branch only logs. -/
def ne_interrupt (c : NeConfig) (isrs : List Nat) (st : NeState) : NeState :=
  isrs.foldl (fun s isr => if Nat.land isr c.isrPtx ≠ 0 then ne_interrupt_ptx c s else s) st

/-- The four ring-layout fields of the driver state, bundled for the
immutability statements. -/
def layoutOf (st : NeState) : Nat × Nat × Nat × Nat :=
  (st.send_startpage, st.send_stoppage, st.recv_startpage, st.recv_stoppage)

/-- A byte read from the card's RAM: `insb`/`insw` deliver byte-wide data, so
every value obtained through the data port is reduced modulo 256. -/
def byteAt (mem : Nat → Nat) (a : Nat) : Nat :=
  mem a % 256

/-- Embedding of the data delivered by `ne_getblock` (src/eth/ne.c lines
229-236): a remote-DMA read streams `size` consecutive bytes of card RAM
starting at `addr` through the data port. -/
def ne_getblock (mem : Nat → Nat) (addr size : Nat) : List Nat :=
  (List.range size).map fun i => byteAt mem (addr + i)

/-- The page `ne_pio_read` decides to read next (src/eth/ne.c lines 324-327):
the page after `BNRY`, wrapped to `recv_startpage` when it equals
`recv_stoppage`. -/
def recvPage (st : NeState) (bnry0 : Nat) : Nat :=
  let p := bnry0 + 1
  if p = st.recv_stoppage then st.recv_startpage else p

/-- The payload size `ne_pio_read` computes (src/eth/ne.c line 338):
`(header.rbc0 | header.rbc1 << 8) - sizeof(header)` evaluated in C `uint`
arithmetic, so a byte count below 4 wraps modulo `2 ^ 32`. -/
def recvPktsize (c : NeConfig) (mem : Nat → Nat) (page : Nat) : Nat :=
  (Nat.lor (byteAt mem (page * c.pagesize + 2)) (byteAt mem (page * c.pagesize + 3) <<< 8)
      + (2 ^ 32 - 4)) % 2 ^ 32

/-- The byte `ne_pio_read` writes to the boundary register (src/eth/ne.c
lines 362-365): `bnry = header.next - 1` in `uint` arithmetic, replaced by
`recv_stoppage - 1` when the result compares below `recv_startpage`, then
truncated to a byte by `outb`. -/
def bnryValue (st : NeState) (next : Nat) : Nat :=
  let b := (next + (2 ^ 32 - 1)) % 2 ^ 32
  (if b < st.recv_startpage then st.recv_stoppage - 1 else b) % 256

/-- The C cast `(uint)bufsize` applied to the `int` buffer capacity. -/
def toUint32 (i : Int) : Nat :=
  (i % (2 ^ 32 : Int)).toNat

/-- Everything `ne_pio_read` hands back to its environment: the returned
`int`, the byte written to the boundary register (if the write is reached),
and the bytes stored into the caller's buffer (empty if no copy is
performed). -/
structure RecvOut where
  result : Int
  bnryWrite : Option Nat
  data : List Nat
deriving DecidableEq

/-- The number of bytes `ne_pio_read` copies before wrapping
(src/eth/ne.c line 349): `remain = (recv_stoppage - page) * DP_PAGESIZE`. -/
def recvRemain (c : NeConfig) (st : NeState) (page : Nat) : Nat :=
  (st.recv_stoppage - page) * c.pagesize

/-- The bytes `ne_pio_read` stores into the caller's buffer once the copy
branch is taken (src/eth/ne.c lines 348-355): a single `ne_getblock` past the
header, or two when `remain < pktsize`. -/
def recvData (c : NeConfig) (st : NeState) (mem : Nat → Nat) (page pktsize : Nat) : List Nat :=
  if recvRemain c st page < pktsize then
    ne_getblock mem (page * c.pagesize + 4) (recvRemain c st page)
      ++ ne_getblock mem (st.recv_startpage * c.pagesize) (pktsize - recvRemain c st page)
  else
    ne_getblock mem (page * c.pagesize + 4) pktsize

/-- Embedding of `ne_pio_read` (src/eth/ne.c lines 310-368).  `curr` and
`bnry0` are the values read from the CURR and BNRY registers, `mem` is the
card's RAM, `bufNull` tells whether the caller passed a null buffer, and
`bufsize` is the C `int` capacity.  The branch structure mirrors the source:
empty ring, malformed-header rejection, the copy (single segment or split at
the ring end) with the boundary-register update, and the buffer-too-small
early return. -/
def ne_pio_read (c : NeConfig) (st : NeState) (curr bnry0 : Nat) (mem : Nat → Nat)
    (bufNull : Bool) (bufsize : Int) : RecvOut :=
  if recvPage st bnry0 = curr then
    ⟨0, none, []⟩
  else if recvPktsize c mem (recvPage st bnry0) < c.ethMin
      ∨ recvPktsize c mem (recvPage st bnry0) > c.ethMax
      ∨ Nat.land (byteAt mem (recvPage st bnry0 * c.pagesize)) c.rsrPrx = 0 then
    ⟨-1, none, []⟩
  else if bufNull = false ∧ recvPktsize c mem (recvPage st bnry0) ≤ toUint32 bufsize then
    ⟨(recvPktsize c mem (recvPage st bnry0) : Int),
      some (bnryValue st (byteAt mem (recvPage st bnry0 * c.pagesize + 1))),
      recvData c st mem (recvPage st bnry0) (recvPktsize c mem (recvPage st bnry0))⟩
  else
    ⟨(recvPktsize c mem (recvPage st bnry0) : Int), none, []⟩

/-- `ne_pio_read` viewed as a state transformer: the source function reads
driver-state fields but never assigns any of them, so the state component is
returned unchanged. -/
def ne_pio_read_st (c : NeConfig) (st : NeState) (curr bnry0 : Nat) (mem : Nat → Nat)
    (bufNull : Bool) (bufsize : Int) : RecvOut × NeState :=
  (ne_pio_read c st curr bnry0 mem bufNull bufsize, st)

theorem layoutOf_interrupt_ptx (c : NeConfig) (st : NeState) :
    layoutOf (ne_interrupt_ptx c st) = layoutOf st := rfl

theorem layoutOf_interrupt (c : NeConfig) (isrs : List Nat) (st : NeState) :
    layoutOf (ne_interrupt c isrs st) = layoutOf st := by
  induction isrs generalizing st with
  | nil => rfl
  | cons isr rest ih =>
    have hstep :
        ne_interrupt c (isr :: rest) st
          = ne_interrupt c rest (if Nat.land isr c.isrPtx ≠ 0 then ne_interrupt_ptx c st else st) :=
      rfl
    rw [hstep, ih]
    split
    · exact layoutOf_interrupt_ptx c st
    · rfl

/-- C3: for both bus widths, `ne_init` yields
`sendStartPage < sendStopPage < recvStartPage ≤ recvStopPage` with
`recvStopPage - recvStartPage = totalPages - SENDQ_PAGES * SENDQ_LEN`, and
none of `ne_pio_write`, `ne_interrupt`, `ne_pio_read` modifies any of the
four layout fields.  The hypotheses say the send queue spans at least two
pages and fits into the card's page count, which holds for the constants of
the (absent) header ne.h. -/
theorem C3_layout_invariant (c : NeConfig) (w : Bool)
    (h2 : 2 ≤ c.sendqPages * c.sendqLen)
    (hfit : c.sendqPages * c.sendqLen ≤ (if w then c.ne2000size else c.ne1000size) / c.pagesize) :
    ((ne_init c w).send_startpage < (ne_init c w).send_stoppage
      ∧ (ne_init c w).send_stoppage < (ne_init c w).recv_startpage
      ∧ (ne_init c w).recv_startpage ≤ (ne_init c w).recv_stoppage)
    ∧ (ne_init c w).recv_stoppage - (ne_init c w).recv_startpage
        = (ne_init c w).pages - c.sendqPages * c.sendqLen
    ∧ (∀ st size, layoutOf (ne_pio_write c st size).2 = layoutOf st)
    ∧ (∀ st isrs, layoutOf (ne_interrupt c isrs st) = layoutOf st)
    ∧ (∀ st curr bnry0 mem bufNull bufsize,
        layoutOf (ne_pio_read_st c st curr bnry0 mem bufNull bufsize).2 = layoutOf st) :=
  by
  have hsp : (ne_init c w).send_startpage
      = (if w then c.ne2000start else c.ne1000start) / c.pagesize := by
    cases w <;> rfl
  have hpg : (ne_init c w).pages
      = (if w then c.ne2000size else c.ne1000size) / c.pagesize := by
    cases w <;> rfl
  have hstp : (ne_init c w).send_stoppage
      = (ne_init c w).send_startpage + c.sendqPages * c.sendqLen - 1 := by
    cases w <;> rfl
  have hrsp : (ne_init c w).recv_startpage = (ne_init c w).send_stoppage + 1 := by
    cases w <;> rfl
  have hrstp : (ne_init c w).recv_stoppage
      = (ne_init c w).send_startpage + (ne_init c w).pages := by
    cases w <;> rfl
  refine ⟨?_, ?_, ?_, ?_, ?_⟩
  · omega
  · omega
  · intro st size
    unfold ne_pio_write
    split
    · rfl
    · rfl
  · intro st isrs
    exact layoutOf_interrupt c isrs st
  · intro st curr bnry0 mem bufNull bufsize
    rfl

/-- The driver state after probing a 16-bit card and running `ne_init` with
the representative configuration: send pages 64..75, receive ring pages
76..128. -/
def st0 : NeState := ne_init cfg0 true

/-- Card address of a ring offset, wrapping from `recv_stoppage` back to
`recv_startpage`; used to say where the NIC actually stores a received
frame. -/
def ringAddr (c : NeConfig) (st : NeState) (a : Nat) : Nat :=
  if a < st.recv_stoppage * c.pagesize then a
  else st.recv_startpage * c.pagesize + (a - st.recv_stoppage * c.pagesize)

/-- Modelled from the spec: ne.h and the DP8390 storage description behind it
are absent from the sources, so the expected contents of a received frame are
taken from the spec's receive-ring description — the payload starts 4 bytes
past the packet's page start (after the 4-byte header) and wraps from the
ring end `recvStopPage` back to `recvStartPage`. -/
def specRingPayload (c : NeConfig) (st : NeState) (mem : Nat → Nat) (page pktsize : Nat) :
    List Nat :=
  (List.range pktsize).map fun i => byteAt mem (ringAddr c st (page * c.pagesize + 4 + i))

/-- Witness for C3 at the representative configuration, for both widths. -/
theorem C3_layout_invariant_witness :
    (((ne_init cfg0 true).send_startpage < (ne_init cfg0 true).send_stoppage
        ∧ (ne_init cfg0 true).send_stoppage < (ne_init cfg0 true).recv_startpage
        ∧ (ne_init cfg0 true).recv_startpage ≤ (ne_init cfg0 true).recv_stoppage)
      ∧ (ne_init cfg0 true).recv_stoppage - (ne_init cfg0 true).recv_startpage
          = (ne_init cfg0 true).pages - cfg0.sendqPages * cfg0.sendqLen
      ∧ (∀ st size, layoutOf (ne_pio_write cfg0 st size).2 = layoutOf st)
      ∧ (∀ st isrs, layoutOf (ne_interrupt cfg0 isrs st) = layoutOf st)
      ∧ (∀ st curr bnry0 mem bufNull bufsize,
          layoutOf (ne_pio_read_st cfg0 st curr bnry0 mem bufNull bufsize).2 = layoutOf st))
    ∧ ((ne_init cfg0 false).send_startpage < (ne_init cfg0 false).send_stoppage
        ∧ (ne_init cfg0 false).send_stoppage < (ne_init cfg0 false).recv_startpage
        ∧ (ne_init cfg0 false).recv_startpage ≤ (ne_init cfg0 false).recv_stoppage) :=
  ⟨C3_layout_invariant cfg0 true (by decide) (by decide),
    (C3_layout_invariant cfg0 false (by decide) (by decide)).1⟩

theorem byteAt_lt (mem : Nat → Nat) (a : Nat) : byteAt mem a < 256 :=
  Nat.mod_lt _ (by omega)

/-- Card RAM for the C4 failing input: a valid 300-byte packet whose header
sits at the start of the last ring page (page 127, address 32512), with
`status = 1` (RSR_PRX), `next = 78`, byte count 304 = 4 + 300; every other
cell holds its address modulo 251, so distinct addresses hold distinct
byte patterns near the wrap point. -/
def mem4 : Nat → Nat := fun a =>
  if a = 32512 then 1
  else if a = 32513 then 78
  else if a = 32514 then 48
  else if a = 32515 then 1
  else a % 251

set_option maxRecDepth 100000 in
/-- C4: a received packet whose payload extends past `recvStopPage` is NOT
reassembled correctly by `ne_pio_read`.  At the failing input (page 127 of
the ring 76..128, payload size 300, ample buffer) the copy is split after
`remain = (recvStopPage - page) * DP_PAGESIZE` bytes instead of
`remain - 4`: the first segment reads 4 bytes past the ring end and the
wrapped segment starts 4 bytes too early, so byte 252 of the output is the
out-of-ring byte at address 32768 instead of the ring byte at 19456, and the
output differs from the payload as laid out in the ring. -/
theorem C4_wraparound_reassembly_bug :
    (ne_pio_read cfg0 st0 80 126 mem4 false 1600).result = 300
    ∧ (ne_pio_read cfg0 st0 80 126 mem4 false 1600).data.length = 300
    ∧ (ne_pio_read cfg0 st0 80 126 mem4 false 1600).data.getD 252 0 = 138
    ∧ (specRingPayload cfg0 st0 mem4 127 300).getD 252 0 = 129
    ∧ (ne_pio_read cfg0 st0 80 126 mem4 false 1600).data
        ≠ specRingPayload cfg0 st0 mem4 127 300 := by
  decide

/-- C6: when the header read by `ne_pio_read` fails validation — computed
payload size outside `[ETH_MIN_SIZE, ETH_MAX_SIZE]` or receive-status bit
`RSR_PRX` clear — the call returns -1, writes nothing to the caller's buffer
and does not touch the boundary register. -/
theorem C6_malformed_rejected (c : NeConfig) (st : NeState) (curr bnry0 : Nat)
    (mem : Nat → Nat) (bufNull : Bool) (bufsize : Int)
    (hne : recvPage st bnry0 ≠ curr)
    (hbad : recvPktsize c mem (recvPage st bnry0) < c.ethMin
      ∨ recvPktsize c mem (recvPage st bnry0) > c.ethMax
      ∨ Nat.land (byteAt mem (recvPage st bnry0 * c.pagesize)) c.rsrPrx = 0) :
    ne_pio_read c st curr bnry0 mem bufNull bufsize = ⟨-1, none, []⟩ := by
  unfold ne_pio_read
  rw [if_neg hne, if_pos hbad]

/-- Card RAM for the C6 witness: header with byte count 0, so the `uint`
payload size wraps to `2 ^ 32 - 4`, far above `ETH_MAX_SIZE`. -/
def mem6w : Nat → Nat := fun a =>
  if a = 25600 then 1 else 0

/-- Witness for C6: page 100 of the representative layout holds a header
whose byte count underflows, and the call returns -1 with no writes. -/
theorem C6_malformed_rejected_witness :
    (recvPage st0 99 ≠ 80
      ∧ (recvPktsize cfg0 mem6w (recvPage st0 99) < cfg0.ethMin
        ∨ recvPktsize cfg0 mem6w (recvPage st0 99) > cfg0.ethMax
        ∨ Nat.land (byteAt mem6w (recvPage st0 99 * cfg0.pagesize)) cfg0.rsrPrx = 0))
    ∧ ne_pio_read cfg0 st0 80 99 mem6w false 1600 = ⟨-1, none, []⟩ :=
  ⟨⟨by decide, by decide⟩,
    C6_malformed_rejected cfg0 st0 80 99 mem6w false 1600 (by decide) (by decide)⟩

/-- Card RAM for the C5 counterexample: a valid 60-byte packet at page 100
whose header has `next = 0`, the one byte value for which the claimed wrap
rule and the `uint` arithmetic of the code disagree. -/
def mem5 : Nat → Nat := fun a =>
  if a = 25600 then 1
  else if a = 25601 then 0
  else if a = 25602 then 64
  else if a = 25603 then 0
  else 3

/-- C5 counterexample: with `header.next = 0` the computed `uint` value
`header.next - 1` is `2 ^ 32 - 1`, which is NOT below `recvStartPage`, so no
wrap to `recvStopPage - 1 = 127` happens; the byte actually written to the
boundary register is `0xFF = 255`. -/
theorem C5_next_zero_counterexample :
    (ne_pio_read cfg0 st0 80 99 mem5 false 1600).bnryWrite = some 255
    ∧ st0.recv_stoppage - 1 = 127
    ∧ (255 : Nat) ≠ 127 := by
  decide

theorem bnryValue_of_pos (st : NeState) (next : Nat) (h1 : 1 ≤ next) (h2 : next ≤ 255)
    (hstop : st.recv_stoppage ≤ 256) :
    bnryValue st next
      = if next - 1 < st.recv_startpage then st.recv_stoppage - 1 else next - 1 := by
  unfold bnryValue
  have hb : (next + (2 ^ 32 - 1)) % 2 ^ 32 = next - 1 := by
    have he : next + (2 ^ 32 - 1) = (next - 1) + 2 ^ 32 := by omega
    rw [he, Nat.add_mod_right]
    exact Nat.mod_eq_of_lt (by omega)
  rw [hb]
  show (if next - 1 < st.recv_startpage then st.recv_stoppage - 1 else next - 1) % 256 = _
  by_cases hlt : next - 1 < st.recv_startpage
  · rw [if_pos hlt]
    exact Nat.mod_eq_of_lt (show st.recv_stoppage - 1 < 256 by omega)
  · rw [if_neg hlt]
    exact Nat.mod_eq_of_lt (show next - 1 < 256 by omega)

/-- C5 amended: whenever `ne_pio_read` reaches the boundary-register update
(it copied a packet) and the header's `next` byte is at least 1, the byte
written is `next - 1`, wrapped to `recvStopPage - 1` exactly when
`next - 1 < recvStartPage`.  For `next = 0` the `uint` subtraction underflows
to `2 ^ 32 - 1`, the wrap test fails, and the byte written is 255 (see the
counterexample). -/
theorem C5_boundary_advance_amended (c : NeConfig) (st : NeState) (curr bnry0 : Nat)
    (mem : Nat → Nat) (bufNull : Bool) (bufsize : Int)
    (hstop : st.recv_stoppage ≤ 256)
    (hnext : 1 ≤ byteAt mem (recvPage st bnry0 * c.pagesize + 1))
    (hsome : (ne_pio_read c st curr bnry0 mem bufNull bufsize).bnryWrite.isSome = true) :
    (ne_pio_read c st curr bnry0 mem bufNull bufsize).bnryWrite
      = some (if byteAt mem (recvPage st bnry0 * c.pagesize + 1) - 1 < st.recv_startpage
          then st.recv_stoppage - 1
          else byteAt mem (recvPage st bnry0 * c.pagesize + 1) - 1) := by
  have h255 : byteAt mem (recvPage st bnry0 * c.pagesize + 1) ≤ 255 :=
    Nat.lt_succ_iff.mp (byteAt_lt mem _)
  unfold ne_pio_read at hsome ⊢
  by_cases h1 : recvPage st bnry0 = curr
  · rw [if_pos h1] at hsome
    simp at hsome
  rw [if_neg h1] at hsome ⊢
  by_cases h2 : recvPktsize c mem (recvPage st bnry0) < c.ethMin
      ∨ recvPktsize c mem (recvPage st bnry0) > c.ethMax
      ∨ Nat.land (byteAt mem (recvPage st bnry0 * c.pagesize)) c.rsrPrx = 0
  · rw [if_pos h2] at hsome
    simp at hsome
  rw [if_neg h2] at hsome ⊢
  by_cases h3 : bufNull = false ∧ recvPktsize c mem (recvPage st bnry0) ≤ toUint32 bufsize
  · rw [if_pos h3]
    exact congrArg some (bnryValue_of_pos st _ hnext h255 hstop)
  · rw [if_neg h3] at hsome
    simp at hsome

/-- Card RAM for the C5 witness: same valid packet but with `next = 50`;
`50 - 1 = 49` is below `recvStartPage = 76`, so the write wraps to 127. -/
def mem5w : Nat → Nat := fun a =>
  if a = 25600 then 1
  else if a = 25601 then 50
  else if a = 25602 then 64
  else if a = 25603 then 0
  else 3

/-- Witness for C5 amended at a concrete successful copy. -/
theorem C5_boundary_advance_amended_witness :
    (st0.recv_stoppage ≤ 256
      ∧ 1 ≤ byteAt mem5w (recvPage st0 99 * cfg0.pagesize + 1)
      ∧ (ne_pio_read cfg0 st0 80 99 mem5w false 1600).bnryWrite.isSome = true)
    ∧ (ne_pio_read cfg0 st0 80 99 mem5w false 1600).bnryWrite
        = some (if byteAt mem5w (recvPage st0 99 * cfg0.pagesize + 1) - 1 < st0.recv_startpage
            then st0.recv_stoppage - 1
            else byteAt mem5w (recvPage st0 99 * cfg0.pagesize + 1) - 1) :=
  ⟨⟨by decide, by decide, by decide⟩,
    C5_boundary_advance_amended cfg0 st0 80 99 mem5w false 1600
      (by decide) (by decide) (by decide)⟩

/-- Card RAM for the C7 counterexample: a valid 60-byte packet at page 100
with `next = 90`. -/
def mem7 : Nat → Nat := fun a =>
  if a = 25600 then 1
  else if a = 25601 then 90
  else if a = 25602 then 64
  else if a = 25603 then 0
  else 7

/-- C7 counterexample: with a non-null buffer and the negative capacity
`bufsize = -1`, the C comparison `(uint)bufsize >= pktsize` promotes -1 to
`2 ^ 32 - 1`, so `ne_pio_read` copies the payload and advances the boundary
register instead of returning the required size without consuming the
packet. -/
theorem C7_negative_capacity_counterexample :
    (ne_pio_read cfg0 st0 80 99 mem7 false (-1)).bnryWrite = some 89
    ∧ (ne_pio_read cfg0 st0 80 99 mem7 false (-1)).data ≠ []
    ∧ (ne_pio_read cfg0 st0 80 99 mem7 false (-1)).result = 60 := by
  decide

/-- C7 amended: for a null buffer, or a NONNEGATIVE capacity whose unsigned
image is below the payload size, `ne_pio_read` returns the required payload
size without consuming the packet — no bytes are stored in the caller's
buffer and the boundary register is not written.  (Negative capacities are
promoted to large unsigned values by the C comparison and lead to a copy,
see the counterexample.) -/
theorem C7_buffer_too_small_amended (c : NeConfig) (st : NeState) (curr bnry0 : Nat)
    (mem : Nat → Nat) (bufNull : Bool) (bufsize : Int)
    (hne : recvPage st bnry0 ≠ curr)
    (hok : ¬(recvPktsize c mem (recvPage st bnry0) < c.ethMin
      ∨ recvPktsize c mem (recvPage st bnry0) > c.ethMax
      ∨ Nat.land (byteAt mem (recvPage st bnry0 * c.pagesize)) c.rsrPrx = 0))
    (hsmall : bufNull = true ∨ (0 ≤ bufsize ∧ toUint32 bufsize < recvPktsize c mem (recvPage st bnry0))) :
    ne_pio_read c st curr bnry0 mem bufNull bufsize
      = ⟨(recvPktsize c mem (recvPage st bnry0) : Int), none, []⟩ := by
  unfold ne_pio_read
  rw [if_neg hne, if_neg hok, if_neg]
  rintro ⟨hb, hge⟩
  rcases hsmall with hnull | ⟨hpos, hlt⟩
  · rw [hnull] at hb
    cases hb
  · omega

/-- Card RAM for the C7 witness: the same valid packet, offered a buffer of
capacity 10, smaller than the 60-byte payload. -/
def mem7w : Nat → Nat := fun a =>
  if a = 25600 then 1
  else if a = 25601 then 90
  else if a = 25602 then 64
  else if a = 25603 then 0
  else 9

/-- Witness for C7 amended: capacity 10 < payload 60 yields the required
size with no copy and no boundary write. -/
theorem C7_buffer_too_small_amended_witness :
    (recvPage st0 99 ≠ 80
      ∧ ¬(recvPktsize cfg0 mem7w (recvPage st0 99) < cfg0.ethMin
        ∨ recvPktsize cfg0 mem7w (recvPage st0 99) > cfg0.ethMax
        ∨ Nat.land (byteAt mem7w (recvPage st0 99 * cfg0.pagesize)) cfg0.rsrPrx = 0)
      ∧ ((0 : Int) ≤ 10 ∧ toUint32 10 < recvPktsize cfg0 mem7w (recvPage st0 99)))
    ∧ ne_pio_read cfg0 st0 80 99 mem7w false 10
        = ⟨(recvPktsize cfg0 mem7w (recvPage st0 99) : Int), none, []⟩ :=
  ⟨⟨by decide, by decide, by decide, by decide⟩,
    C7_buffer_too_small_amended cfg0 st0 80 99 mem7w false 10
      (by decide) (by decide) (Or.inr ⟨by decide, by decide⟩)⟩

/-- C10: every value `ne_pio_read` returns is -1 (malformed), 0 (no packet),
or a payload size within `[ETH_MIN_SIZE, ETH_MAX_SIZE]`; in particular, with
a positive minimum frame size, a successful return is never ambiguous with
the two sentinels. -/
theorem C10_result_range (c : NeConfig) (st : NeState) (curr bnry0 : Nat)
    (mem : Nat → Nat) (bufNull : Bool) (bufsize : Int)
    (hmin : 0 < c.ethMin) :
    (ne_pio_read c st curr bnry0 mem bufNull bufsize).result = -1
    ∨ (ne_pio_read c st curr bnry0 mem bufNull bufsize).result = 0
    ∨ ((0 : Int) < (ne_pio_read c st curr bnry0 mem bufNull bufsize).result
        ∧ (c.ethMin : Int) ≤ (ne_pio_read c st curr bnry0 mem bufNull bufsize).result
        ∧ (ne_pio_read c st curr bnry0 mem bufNull bufsize).result ≤ (c.ethMax : Int)) := by
  unfold ne_pio_read
  by_cases h1 : recvPage st bnry0 = curr
  · rw [if_pos h1]
    exact Or.inr (Or.inl rfl)
  rw [if_neg h1]
  by_cases h2 : recvPktsize c mem (recvPage st bnry0) < c.ethMin
      ∨ recvPktsize c mem (recvPage st bnry0) > c.ethMax
      ∨ Nat.land (byteAt mem (recvPage st bnry0 * c.pagesize)) c.rsrPrx = 0
  · rw [if_pos h2]
    exact Or.inl rfl
  rw [if_neg h2]
  have hrange : c.ethMin ≤ recvPktsize c mem (recvPage st bnry0)
      ∧ recvPktsize c mem (recvPage st bnry0) ≤ c.ethMax := by omega
  by_cases h3 : bufNull = false ∧ recvPktsize c mem (recvPage st bnry0) ≤ toUint32 bufsize
  · rw [if_pos h3]
    refine Or.inr (Or.inr ⟨?_, ?_, ?_⟩)
    · show (0 : Int) < (recvPktsize c mem (recvPage st bnry0) : Int)
      exact_mod_cast by omega
    · show (c.ethMin : Int) ≤ (recvPktsize c mem (recvPage st bnry0) : Int)
      exact_mod_cast hrange.1
    · show (recvPktsize c mem (recvPage st bnry0) : Int) ≤ (c.ethMax : Int)
      exact_mod_cast hrange.2
  · rw [if_neg h3]
    refine Or.inr (Or.inr ⟨?_, ?_, ?_⟩)
    · show (0 : Int) < (recvPktsize c mem (recvPage st bnry0) : Int)
      exact_mod_cast by omega
    · show (c.ethMin : Int) ≤ (recvPktsize c mem (recvPage st bnry0) : Int)
      exact_mod_cast hrange.1
    · show (recvPktsize c mem (recvPage st bnry0) : Int) ≤ (c.ethMax : Int)
      exact_mod_cast hrange.2

/-- Card RAM for the C10 witness: the ring holds a valid 60-byte packet. -/
def mem10w : Nat → Nat := fun a =>
  if a = 25600 then 1
  else if a = 25601 then 90
  else if a = 25602 then 64
  else if a = 25603 then 0
  else 11

set_option maxRecDepth 100000 in
/-- Witness for C10 at a concrete successful read. -/
theorem C10_result_range_witness :
    0 < cfg0.ethMin
    ∧ ((ne_pio_read cfg0 st0 80 99 mem10w false 1600).result = -1
      ∨ (ne_pio_read cfg0 st0 80 99 mem10w false 1600).result = 0
      ∨ ((0 : Int) < (ne_pio_read cfg0 st0 80 99 mem10w false 1600).result
          ∧ (cfg0.ethMin : Int) ≤ (ne_pio_read cfg0 st0 80 99 mem10w false 1600).result
          ∧ (ne_pio_read cfg0 st0 80 99 mem10w false 1600).result ≤ (cfg0.ethMax : Int))) :=
  ⟨by decide, C10_result_range cfg0 st0 80 99 mem10w false 1600 (by decide)⟩

/-- Driver states reachable from `ne_init` by send steps and by
transmit-complete interrupt steps.  An interrupt step is admitted only when a
transmitted packet is actually outstanding (the number of successful sends
exceeds the number of retired slots), which is when the hardware can raise
`ISR_PTX`. -/
inductive Reachable (c : NeConfig) : NeState → Prop
  | init (w : Bool) : Reachable c (ne_init c w)
  | send (st : NeState) (size : Nat) (h : Reachable c st) :
      Reachable c (ne_pio_write c st size).2
  | intr (st : NeState) (h : Reachable c st)
      (hg : st.sendq_tail + 1 < st.sendq_head + c.sendqLen) :
      Reachable c (ne_interrupt_ptx c st)

/-- Send-queue invariant: `tail` stays at least `SENDQ_LEN - 1`, the window
`[tail + 1 - SENDQ_LEN, head)` of in-flight send indices has length between 0
and `SENDQ_LEN`, and a slot is filled exactly when some in-flight index maps
to it modulo `SENDQ_LEN`. -/
def QInv (c : NeConfig) (st : NeState) : Prop :=
  c.sendqLen - 1 ≤ st.sendq_tail
  ∧ st.sendq_head ≤ st.sendq_tail + 1
  ∧ st.sendq_tail + 1 ≤ st.sendq_head + c.sendqLen
  ∧ ∀ s, s < c.sendqLen →
      (st.sendqFilled s = true
        ↔ ∃ j, st.sendq_tail + 1 - c.sendqLen ≤ j ∧ j < st.sendq_head ∧ j % c.sendqLen = s)

theorem exists_mod_window (N a s : Nat) (hN : 0 < N) (hs : s < N) :
    ∃ j, a ≤ j ∧ j < a + N ∧ j % N = s := by
  have hdm := Nat.div_add_mod a N
  have hmod : a % N < N := Nat.mod_lt a hN
  by_cases hle : a % N ≤ s
  · refine ⟨N * (a / N) + s, by omega, by omega, ?_⟩
    rw [Nat.mul_add_mod]
    exact Nat.mod_eq_of_lt hs
  · refine ⟨N * (a / N) + N + s, by omega, by omega, ?_⟩
    have he : N * (a / N) + N + s = N * (a / N + 1) + s := by ring
    rw [he, Nat.mul_add_mod]
    exact Nat.mod_eq_of_lt hs

theorem mod_gap (N a b : Nat) (hN : 0 < N) (hlt : a < b) (hmod : a % N = b % N) :
    a + N ≤ b := by
  have hdvd : N ∣ b - a := (Nat.modEq_iff_dvd' (Nat.le_of_lt hlt)).mp hmod
  obtain ⟨t, ht⟩ := hdvd
  match t with
  | 0 => omega
  | t + 1 =>
    rw [Nat.mul_succ] at ht
    omega

theorem ne_init_head (c : NeConfig) (w : Bool) : (ne_init c w).sendq_head = 0 := rfl

theorem ne_init_tail (c : NeConfig) (w : Bool) :
    (ne_init c w).sendq_tail = c.sendqLen - 1 := rfl

theorem ne_init_filled (c : NeConfig) (w : Bool) (s : Nat) :
    (ne_init c w).sendqFilled s = false := rfl

theorem qinv_init (c : NeConfig) (hN : 0 < c.sendqLen) (w : Bool) : QInv c (ne_init c w) := by
  unfold QInv
  rw [ne_init_head, ne_init_tail]
  refine ⟨le_rfl, by omega, by omega, ?_⟩
  intro s hs
  rw [ne_init_filled]
  constructor
  · intro hf
    cases hf
  · rintro ⟨j, hj1, hj2, hj3⟩
    omega

theorem qinv_send (c : NeConfig) (hN : 0 < c.sendqLen) (st : NeState) (size : Nat)
    (h : QInv c st) : QInv c (ne_pio_write c st size).2 := by
  obtain ⟨h1, h2, h3, h4⟩ := h
  unfold ne_pio_write
  split
  · exact ⟨h1, h2, h3, h4⟩
  next hnb =>
    push_neg at hnb
    unfold QInv
    dsimp only
    refine ⟨h1, by omega, by omega, ?_⟩
    intro s hs
    simp only [setSlot]
    by_cases hEq : s = st.sendq_head % c.sendqLen
    · rw [if_pos hEq]
      constructor
      · intro hT
        exact ⟨st.sendq_head, by omega, by omega, hEq.symm⟩
      · intro hT
        rfl
    · rw [if_neg hEq]
      rw [h4 s hs]
      constructor
      · rintro ⟨j, hj1, hj2, hj3⟩
        exact ⟨j, hj1, by omega, hj3⟩
      · rintro ⟨j, hj1, hj2, hj3⟩
        refine ⟨j, hj1, ?_, hj3⟩
        by_cases hj : j < st.sendq_head
        · exact hj
        · exfalso
          have hje : j = st.sendq_head := by omega
          rw [hje] at hj3
          exact hEq hj3.symm

theorem qinv_intr (c : NeConfig) (hN : 0 < c.sendqLen) (st : NeState)
    (h : QInv c st) (hg : st.sendq_tail + 1 < st.sendq_head + c.sendqLen) :
    QInv c (ne_interrupt_ptx c st) := by
  obtain ⟨h1, h2, h3, h4⟩ := h
  have hTail : c.sendqLen ≤ st.sendq_tail + 1 := by omega
  have hRetMod : (st.sendq_tail + 1) % c.sendqLen
      = (st.sendq_tail + 1 - c.sendqLen) % c.sendqLen :=
    Nat.mod_eq_sub_mod hTail
  unfold ne_interrupt_ptx QInv
  dsimp only
  refine ⟨by omega, by omega, by omega, ?_⟩
  intro s hs
  simp only [setSlot]
  by_cases hEq : s = (st.sendq_tail + 1) % c.sendqLen
  · rw [if_pos hEq]
    constructor
    · intro hfalse
      cases hfalse
    · rintro ⟨j, hj1, hj2, hj3⟩
      exfalso
      have hjlow : st.sendq_tail + 1 - c.sendqLen < j := by omega
      have hmodeq : (st.sendq_tail + 1 - c.sendqLen) % c.sendqLen = j % c.sendqLen := by
        rw [hj3, hEq, hRetMod]
      have hgap := mod_gap c.sendqLen (st.sendq_tail + 1 - c.sendqLen) j hN hjlow hmodeq
      omega
  · rw [if_neg hEq]
    rw [h4 s hs]
    constructor
    · rintro ⟨j, hj1, hj2, hj3⟩
      refine ⟨j, ?_, hj2, hj3⟩
      by_cases hx : st.sendq_tail + 1 - c.sendqLen < j
      · omega
      · exfalso
        have hje : j = st.sendq_tail + 1 - c.sendqLen := by omega
        rw [hje, ← hRetMod] at hj3
        exact hEq hj3.symm
    · rintro ⟨j, hj1, hj2, hj3⟩
      exact ⟨j, by omega, hj2, hj3⟩

theorem qinv_reachable (c : NeConfig) (hN : 0 < c.sendqLen) (st : NeState)
    (hr : Reachable c st) : QInv c st := by
  induction hr with
  | init w => exact qinv_init c hN w
  | send st size h ih => exact qinv_send c hN st size ih
  | intr st h hg ih => exact qinv_intr c hN st ih hg

theorem pio_write_fst (c : NeConfig) (st : NeState) (size : Nat) :
    (ne_pio_write c st size).1
      = if st.sendqFilled (st.sendq_head % c.sendqLen) = true ∨ st.sendq_head > st.sendq_tail
        then 0 else size := by
  unfold ne_pio_write
  by_cases hc : st.sendqFilled (st.sendq_head % c.sendqLen) = true
      ∨ st.sendq_head > st.sendq_tail
  · rw [if_pos hc, if_pos hc]
  · rw [if_neg hc, if_neg hc]

theorem qinv_busy_iff (c : NeConfig) (hN : 0 < c.sendqLen) (st : NeState) (h : QInv c st) :
    (st.sendqFilled (st.sendq_head % c.sendqLen) = true ∨ st.sendq_head > st.sendq_tail)
      ↔ ∀ s, s < c.sendqLen → st.sendqFilled s = true := by
  obtain ⟨h1, h2, h3, h4⟩ := h
  constructor
  · intro hb
    have hfull : st.sendq_head = st.sendq_tail + 1 - c.sendqLen + c.sendqLen := by
      rcases hb with hf | hgt
      · obtain ⟨j, hj1, hj2, hj3⟩ := (h4 _ (Nat.mod_lt _ hN)).mp hf
        have hgap := mod_gap c.sendqLen j st.sendq_head hN hj2 hj3
        omega
      · omega
    intro s hs
    obtain ⟨j, hj1, hj2, hj3⟩ :=
      exists_mod_window c.sendqLen (st.sendq_tail + 1 - c.sendqLen) s hN hs
    exact (h4 s hs).mpr ⟨j, hj1, by omega, hj3⟩
  · intro hall
    exact Or.inl (hall _ (Nat.mod_lt _ hN))

theorem not_busy_after_ptx (c : NeConfig) (hN : 0 < c.sendqLen) (st : NeState)
    (h : QInv c st) :
    ¬((ne_interrupt_ptx c st).sendqFilled ((ne_interrupt_ptx c st).sendq_head % c.sendqLen) = true
      ∨ (ne_interrupt_ptx c st).sendq_head > (ne_interrupt_ptx c st).sendq_tail) := by
  obtain ⟨h1, h2, h3, h4⟩ := h
  have hTail : c.sendqLen ≤ st.sendq_tail + 1 := by omega
  have hRetMod : (st.sendq_tail + 1) % c.sendqLen
      = (st.sendq_tail + 1 - c.sendqLen) % c.sendqLen := Nat.mod_eq_sub_mod hTail
  unfold ne_interrupt_ptx
  dsimp only
  rintro (hf | hgt)
  · simp only [setSlot] at hf
    by_cases hEq : st.sendq_head % c.sendqLen = (st.sendq_tail + 1) % c.sendqLen
    · rw [if_pos hEq] at hf
      cases hf
    · rw [if_neg hEq] at hf
      obtain ⟨j, hj1, hj2, hj3⟩ := (h4 _ (Nat.mod_lt _ hN)).mp hf
      have hgap := mod_gap c.sendqLen j st.sendq_head hN hj2 hj3
      have hhead : st.sendq_head = st.sendq_tail + 1 - c.sendqLen + c.sendqLen := by omega
      apply hEq
      rw [hhead, Nat.add_mod_right, hRetMod]
  · omega

/-- C2: in every state reachable from `ne_init` by sends and legitimate
transmit-complete interrupts, `ne_pio_write` with a positive size returns 0
(Busy) exactly when all `SENDQ_LEN` slots are filled; and immediately after
the `ISR_PTX` branch of `ne_interrupt` retires a slot, `ne_pio_write`
succeeds, returning `size`. -/
theorem C2_busy_iff_full (c : NeConfig) (st : NeState) (size : Nat)
    (hN : 0 < c.sendqLen) (hsize : 0 < size) (hr : Reachable c st) :
    ((ne_pio_write c st size).1 = 0 ↔ ∀ s, s < c.sendqLen → st.sendqFilled s = true)
    ∧ (ne_pio_write c (ne_interrupt_ptx c st) size).1 = size := by
  have hq := qinv_reachable c hN st hr
  constructor
  · rw [pio_write_fst]
    by_cases hb : st.sendqFilled (st.sendq_head % c.sendqLen) = true
        ∨ st.sendq_head > st.sendq_tail
    · rw [if_pos hb]
      constructor
      · intro h0
        exact (qinv_busy_iff c hN st hq).mp hb
      · intro hall
        rfl
    · rw [if_neg hb]
      constructor
      · intro h0
        exact absurd h0 (by omega)
      · intro hall
        exact absurd ((qinv_busy_iff c hN st hq).mpr hall) hb
  · rw [pio_write_fst]
    rw [if_neg (not_busy_after_ptx c hN st hq)]

/-- Witness for C2 at the freshly initialized representative state. -/
theorem C2_busy_iff_full_witness :
    (0 < cfg0.sendqLen ∧ 0 < 60)
    ∧ (((ne_pio_write cfg0 st0 60).1 = 0 ↔ ∀ s, s < cfg0.sendqLen → st0.sendqFilled s = true)
      ∧ (ne_pio_write cfg0 (ne_interrupt_ptx cfg0 st0) 60).1 = 60) :=
  ⟨⟨by decide, by decide⟩,
    C2_busy_iff_full cfg0 st0 60 (by decide) (by decide) (Reachable.init true)⟩

/-- Embedding of the width-detection loop of `ne_probe` (src/eth/ne.c lines
78-86): `is16bit` starts TRUE and is cleared whenever an even/odd byte pair
of the 32-byte PROM stream differs. -/
def promPairsOk (raw : List Nat) : Bool :=
  (List.range 16).foldl
    (fun b i => if raw.getD (2 * i) 0 = raw.getD (2 * i + 1) 0 then b else false) true

/-- Embedding of the 16-bit compaction loop of `ne_probe` (src/eth/ne.c lines
89-93): keep every even-indexed byte of the PROM image.  (The in-place C loop
reads index `2 i` while writing index `i ≤ 2 i`, so it reads only original
bytes.) -/
def promCompact (raw : List Nat) : List Nat :=
  (List.range 16).map fun i => raw.getD (2 * i) 0

/-- The PROM image `ne_probe` checks and copies from: compacted when the card
was detected as 16-bit, raw otherwise. -/
def promImage (raw : List Nat) : List Nat :=
  if promPairsOk raw then promCompact raw else raw

/-- Embedding of the PROM stage of `ne_probe` (src/eth/ne.c lines 77-105):
`raw` is the stream of 32 bytes read from the data port; the result is
`none` when the signature check fails (probe returns FALSE) and otherwise
carries `is16bit` and the 6 MAC-address bytes copied into the driver
state. -/
def ne_probe_prom (raw : List Nat) : Option (Bool × List Nat) :=
  if (promImage raw).getD 14 0 = 87 ∧ (promImage raw).getD 15 0 = 87 then
    some (promPairsOk raw, (promImage raw).take 6)
  else
    none

theorem foldl_ite_all (P : Nat → Prop) [DecidablePred P] (n : Nat) :
    ((List.range n).foldl (fun b i => if P i then b else false) true = true)
      ↔ ∀ i, i < n → P i := by
  induction n with
  | zero =>
    constructor
    · intro _ i hi
      exact absurd hi (by omega)
    · intro _
      rfl
  | succ n ih =>
    rw [List.range_succ, List.foldl_append, List.foldl_cons, List.foldl_nil]
    by_cases hP : P n
    · rw [if_pos hP, ih]
      constructor
      · intro hall i hi
        by_cases hin : i < n
        · exact hall i hin
        · have hie : i = n := by omega
          rw [hie]
          exact hP
      · intro hall i hi
        exact hall i (by omega)
    · rw [if_neg hP]
      constructor
      · intro hfalse
        cases hfalse
      · intro hall
        exact absurd (hall n (by omega)) hP

/-- C8: over every 32-byte PROM stream, the probe detects a wide bus exactly
when all 16 even/odd byte pairs agree; the image it then checks is the
claimed compaction (or the raw image for 8-bit cards); the probe succeeds
exactly when bytes 14 and 15 of that image are both 0x57 = 87; and on
success the MAC address is the first 6 bytes of that image. -/
theorem C8_prom_probe (raw : List Nat) (hlen : raw.length = 32) :
    ((ne_probe_prom raw).isSome = true
      ↔ (promImage raw).getD 14 0 = 87 ∧ (promImage raw).getD 15 0 = 87)
    ∧ (promPairsOk raw = true ↔ ∀ i, i < 16 → raw.getD (2 * i) 0 = raw.getD (2 * i + 1) 0)
    ∧ (∀ w mac, ne_probe_prom raw = some (w, mac)
        → w = promPairsOk raw ∧ mac = (promImage raw).take 6) := by
  refine ⟨?_, ?_, ?_⟩
  · unfold ne_probe_prom
    by_cases hsig : (promImage raw).getD 14 0 = 87 ∧ (promImage raw).getD 15 0 = 87
    · rw [if_pos hsig]
      simp only [Option.isSome_some, true_iff]
      exact hsig
    · rw [if_neg hsig]
      simp only [Option.isSome_none]
      constructor
      · intro hfalse
        cases hfalse
      · intro h
        exact absurd h hsig
  · exact foldl_ite_all _ 16
  · intro w mac h
    unfold ne_probe_prom at h
    by_cases hsig : (promImage raw).getD 14 0 = 87 ∧ (promImage raw).getD 15 0 = 87
    · rw [if_pos hsig] at h
      simp only [Option.some.injEq, Prod.mk.injEq] at h
      exact ⟨h.1.symm, h.2.symm⟩
    · rw [if_neg hsig] at h
      cases h

/-- A synthetic 32-byte PROM stream with every pair duplicated, MAC bytes
02:11:22:33:44:55 and the 0x57,0x57 signature at compacted offsets 14,15. -/
def prom8w : List Nat :=
  [2, 2, 17, 17, 34, 34, 51, 51, 68, 68, 85, 85, 6, 6, 7, 7,
   8, 8, 9, 9, 10, 10, 11, 11, 12, 12, 13, 13, 87, 87, 87, 87]

/-- Witness for C8 on the synthetic PROM stream. -/
theorem C8_prom_probe_witness :
    prom8w.length = 32
    ∧ (((ne_probe_prom prom8w).isSome = true
        ↔ (promImage prom8w).getD 14 0 = 87 ∧ (promImage prom8w).getD 15 0 = 87)
      ∧ (promPairsOk prom8w = true
        ↔ ∀ i, i < 16 → prom8w.getD (2 * i) 0 = prom8w.getD (2 * i + 1) 0)
      ∧ (∀ w mac, ne_probe_prom prom8w = some (w, mac)
          → w = promPairsOk prom8w ∧ mac = (promImage prom8w).take 6)) :=
  ⟨by decide, C8_prom_probe prom8w (by decide)⟩

/-- Embedding of the reset wait loop of `ne_probe` (src/eth/ne.c lines
48-54), indexed by the C counter `i`: read the interrupt-status register; if
the masked reset bit is set leave the loop (TRUE), otherwise give up with
FALSE once the counter exceeds 10000, else poll again.  `rd k` is the value
the k-th `inb` of the register delivers. -/
def ne_reset_wait_aux (mask : Nat) (rd : Nat → Nat) (i : Nat) : Bool :=
  if Nat.land (rd i) mask ≠ 0 then true
  else if 10000 < i then false
  else ne_reset_wait_aux mask rd (i + 1)
termination_by 10001 - i

/-- The reset wait loop started with counter 0, as `ne_probe` does;
result FALSE is the path on which the probe returns not-found. -/
def ne_reset_wait (mask : Nat) (rd : Nat → Nat) : Bool :=
  ne_reset_wait_aux mask rd 0

theorem ne_reset_wait_aux_false_iff (mask : Nat) (rd : Nat → Nat) :
    ∀ n i, i + n = 10001 →
      (ne_reset_wait_aux mask rd i = false
        ↔ ∀ k, i ≤ k → k ≤ 10001 → Nat.land (rd k) mask = 0) := by
  intro n
  induction n with
  | zero =>
    intro i hi
    have hie : i = 10001 := by omega
    subst hie
    unfold ne_reset_wait_aux
    by_cases hbit : Nat.land (rd 10001) mask ≠ 0
    · rw [if_pos hbit]
      constructor
      · intro hfalse
        cases hfalse
      · intro hall
        exact absurd (hall 10001 le_rfl le_rfl) hbit
    · rw [if_neg hbit, if_pos (show 10000 < 10001 by omega)]
      push_neg at hbit
      constructor
      · intro hT k hk1 hk2
        have hke : k = 10001 := by omega
        rw [hke]
        exact hbit
      · intro hall
        rfl
  | succ n ih =>
    intro i hi
    unfold ne_reset_wait_aux
    by_cases hbit : Nat.land (rd i) mask ≠ 0
    · rw [if_pos hbit]
      constructor
      · intro hfalse
        cases hfalse
      · intro hall
        exact absurd (hall i le_rfl (by omega)) hbit
    · rw [if_neg hbit, if_neg (show ¬10000 < i by omega)]
      push_neg at hbit
      rw [ih (i + 1) (by omega)]
      constructor
      · intro hall k hk1 hk2
        by_cases hk : k = i
        · rw [hk]
          exact hbit
        · exact hall k (by omega) hk2
      · intro hall k hk1 hk2
        exact hall k (by omega) hk2

/-- C9: the reset poll of `ne_probe` is bounded by its counter guard
`i++ > 10000` — it reads the interrupt-status register at most 10002 times
(counter values 0 through 10001) and thus always terminates; it falls through
to the not-found (FALSE) return exactly when none of those reads has the
reset bit set, and succeeds exactly when some read within the bound has it
set. -/
theorem C9_reset_poll_bounded (mask : Nat) (rd : Nat → Nat) :
    (ne_reset_wait mask rd = false ↔ ∀ k, k ≤ 10001 → Nat.land (rd k) mask = 0)
    ∧ (ne_reset_wait mask rd = true ↔ ∃ k, k ≤ 10001 ∧ Nat.land (rd k) mask ≠ 0) := by
  have hbase := ne_reset_wait_aux_false_iff mask rd 10001 0 (by omega)
  have hfst : ne_reset_wait mask rd = false ↔ ∀ k, k ≤ 10001 → Nat.land (rd k) mask = 0 := by
    unfold ne_reset_wait
    rw [hbase]
    constructor
    · intro h k hk
      exact h k (Nat.zero_le k) hk
    · intro h k hk1 hk2
      exact h k hk2
  refine ⟨hfst, ?_⟩
  constructor
  · intro htrue
    by_contra hno
    push_neg at hno
    have hall : ∀ k, k ≤ 10001 → Nat.land (rd k) mask = 0 := by
      intro k hk
      exact hno k hk
    rw [hfst.mpr hall] at htrue
    cases htrue
  · intro hex
    cases he : ne_reset_wait mask rd with
    | true => rfl
    | false =>
      obtain ⟨k, hk, hbit⟩ := hex
      exact absurd (hfst.mp he k hk) hbit

/-- The DP8390/NE2000 registers `ne_pio_write` and its callees touch,
identified by name (the numeric offsets live in the absent header ne.h and
play no role in the ordering properties below). -/
inductive NePort
  | CR | ISR | RSAR0 | RSAR1 | RBCR0 | RBCR1 | CRDA0 | CRDA1 | DATA | TPSR | TBCR0 | TBCR1
deriving DecidableEq

/-- A single port access: an `inb`-style read or an `outb`/`outs`-style
write of a value. -/
inductive PortOp
  | rd (p : NePort)
  | wr (p : NePort) (v : Nat)
deriving DecidableEq

/-- Modelled from the spec: command-register bit values of the absent header
ne.h, with the standard DP8390 encoding (start 0x02, transmit 0x04, remote
read 0x08, remote write 0x10, abort DMA 0x20, page select 0x00/0x40). -/
def CR_STA : Nat := 2
def CR_TXP : Nat := 4
def CR_DM_RR : Nat := 8
def CR_DM_RW : Nat := 16
def CR_NO_DMA : Nat := 32
def CR_PS_P0 : Nat := 0

/-- Port operations of `ne_rdma_setup` (src/eth/ne.c lines 208-215) once the
write handshake (if any) is done: program RSAR, RBCR low/high, then the
command register. -/
def ne_rdma_prog_ops (mode addr size : Nat) : List PortOp :=
  [PortOp.wr NePort.RSAR0 (addr % 256), PortOp.wr NePort.RSAR1 (addr / 256 % 256),
   PortOp.wr NePort.RBCR0 (size % 256), PortOp.wr NePort.RBCR1 (size / 256 % 256),
   PortOp.wr NePort.CR (Nat.lor (Nat.lor mode CR_PS_P0) CR_STA)]

/-- Port operations of `ne_getblock` (src/eth/ne.c lines 229-236): a remote
read setup followed by `dataReads` reads of the data port. -/
def ne_getblock_ops (addr size dataReads : Nat) : List PortOp :=
  ne_rdma_prog_ops CR_DM_RR addr size ++ List.replicate dataReads (PortOp.rd NePort.DATA)

/-- Port operations of `ne_rdma_setup` in write mode (src/eth/ne.c lines
194-216): snapshot CRDA, dummy 4-byte read at `startaddr - 4`, poll the CRDA
pair until it moves (`crdaPolls + 1` reads of the pair), then program the
transfer. -/
def ne_rdma_setup_write_ops (startaddr addr size dummyReads crdaPolls : Nat) : List PortOp :=
  [PortOp.rd NePort.CRDA0, PortOp.rd NePort.CRDA1]
  ++ ne_getblock_ops (startaddr - 4) 4 dummyReads
  ++ (List.replicate (crdaPolls + 1) [PortOp.rd NePort.CRDA0, PortOp.rd NePort.CRDA1]).flatten
  ++ ne_rdma_prog_ops CR_DM_RW addr size

/-- Port operations of `ne_start_xmit` (src/eth/ne.c lines 247-252). -/
def ne_start_xmit_ops (page size : Nat) : List PortOp :=
  [PortOp.wr NePort.TPSR page, PortOp.wr NePort.TBCR0 (size % 256),
   PortOp.wr NePort.TBCR1 (size / 256 % 256),
   PortOp.wr NePort.CR (Nat.lor (Nat.lor (Nat.lor CR_PS_P0 CR_NO_DMA) CR_STA) CR_TXP)]

/-- Port operations of the free-slot path of `ne_pio_write` in src/eth/ne.c
(lines 274-289): DMA write setup, the outbound data stream (`packet` is the
sequence of values pushed through the data port), and then — directly, with
no intervening register read — the transmit start. -/
def ne_pio_write_ops (ps startaddr sendpage : Nat) (packet : List Nat)
    (size dummyReads crdaPolls : Nat) : List PortOp :=
  ne_rdma_setup_write_ops startaddr (sendpage * ps) size dummyReads crdaPolls
  ++ packet.map (fun b => PortOp.wr NePort.DATA b)
  ++ ne_start_xmit_ops sendpage size

/-- Port operations of the free-slot path of `ne_pio_write` in the second
revision of the driver (src/unnamed/part_006 lines 214-236): identical except
that after the data stream the interrupt-status register is polled until the
remote-DMA-complete bit is set (`rdcPolls + 1` reads) before the transmit is
started. -/
def ne_pio_write_ops_v6 (ps startaddr sendpage : Nat) (packet : List Nat)
    (size dummyReads crdaPolls rdcPolls : Nat) : List PortOp :=
  ne_rdma_setup_write_ops startaddr (sendpage * ps) size dummyReads crdaPolls
  ++ packet.map (fun b => PortOp.wr NePort.DATA b)
  ++ List.replicate (rdcPolls + 1) (PortOp.rd NePort.ISR)
  ++ ne_start_xmit_ops sendpage size

/-- C1: at a representative successful send (page size 256, card RAM start
0x4000, slot page 64, a 60-byte packet, one dummy-read cycle and one CRDA
poll iteration), the `ne_pio_write` of src/eth/ne.c performs NO read of the
interrupt-status register at all — in particular none between the data
stream and the start-transmission command — while the same send in the
src/unnamed/part_006 revision polls it as the claim requires. -/
theorem C1_missing_rdc_poll :
    (ne_pio_write_ops 256 16384 64 (List.replicate 60 0) 60 4 1).countP
        (fun o => decide (o = PortOp.rd NePort.ISR)) = 0
    ∧ 0 < (ne_pio_write_ops_v6 256 16384 64 (List.replicate 60 0) 60 4 1 2).countP
        (fun o => decide (o = PortOp.rd NePort.ISR)) := by
  decide
